import Mathlib

/-!
Verification of the ML_Intro repository: a shallow embedding of the two
notebooks (`RF_Feature_Selection_7.ipynb` and `Pipeline_ML_6.ipynb`) and
proofs about the hand-written data manipulation they contain.

Scalars (feature values, importances, clock readings) are modelled as
rationals.  Tables are lists of rows; a row is a list of rationals whose
last entry is the label column.  The pseudo-random shuffle performed by
`train_test_split(random_state=42)` is modelled by an explicit index
permutation, quantified over all permutations of the row range.
-/

namespace MLIntro

/-! Section: Feature selection (first notebook, feature-importance cell)

The cell computes
`indices = np.argsort(importances)[::-1]`,
`cum_important = np.cumsum(importances[indices])`, and
`selected_features = [f for f, c in zip(indices, cum_important) if c <= 0.9]`.
-/

/-- Comparison key used to model `np.argsort`: sort positions by ascending
value, breaking ties by position (a stable ascending sort). -/
def keyLe (v : List ℚ) (i j : ℕ) : Prop :=
  v.getD i 0 < v.getD j 0 ∨ (v.getD i 0 = v.getD j 0 ∧ i ≤ j)

instance (v : List ℚ) : DecidableRel (keyLe v) := fun i j => by
  unfold keyLe; infer_instance

/-- Model of `np.argsort(importances)`: the positions `0..len-1` sorted by
ascending importance. -/
def argsort (v : List ℚ) : List ℕ :=
  (List.range v.length).insertionSort (keyLe v)

/-- Model of `np.argsort(importances)[::-1]`: positions sorted by descending
importance. -/
def argsortDesc (v : List ℚ) : List ℕ := (argsort v).reverse

/-- Running partial sums starting from accumulator `acc`. -/
def cumsumFrom (acc : ℚ) : List ℚ → List ℚ
  | [] => []
  | x :: xs => (acc + x) :: cumsumFrom (acc + x) xs

/-- Model of `np.cumsum`. -/
def cumsum (l : List ℚ) : List ℚ := cumsumFrom 0 l

/-- NumPy fancy indexing `v[idx]` (out-of-range positions default to 0;
they never occur for the index lists produced by `argsort`). -/
def gather (v : List ℚ) (idx : List ℕ) : List ℚ := idx.map (fun i => v.getD i 0)

/-- The `selected_features` comprehension of the first notebook:
keep a ranked feature exactly when its cumulative importance is `<= 0.9`. -/
def selected_features (importances : List ℚ) : List ℕ :=
  (((argsortDesc importances).zip
      (cumsum (gather importances (argsortDesc importances)))).filter
    (fun p => decide (p.2 ≤ (9:ℚ)/10))).map Prod.fst

/-- Column slicing `X[:, cols]` on a row-major table. -/
def sliceCols (X : List (List ℚ)) (cols : List ℕ) : List (List ℚ) :=
  X.map (fun row => cols.map (fun c => row.getD c 0))

/-! Subsection: Helper lemmas for the cumulative-importance threshold -/

lemma gather_nonneg (v : List ℚ) (h : ∀ x ∈ v, 0 ≤ x) (idx : List ℕ) :
    ∀ x ∈ gather v idx, 0 ≤ x := by
  intro x hx
  simp only [gather, List.mem_map] at hx
  obtain ⟨i, -, rfl⟩ := hx
  by_cases hi : i < v.length
  · rw [List.getD_eq_getElem v 0 hi]
    exact h _ (List.getElem_mem hi)
  · rw [List.getD_eq_default v 0 (Nat.le_of_not_lt hi)]

lemma cumsumFrom_ge : ∀ (l : List ℚ) (a : ℚ), (∀ x ∈ l, 0 ≤ x) →
    ∀ c ∈ cumsumFrom a l, a ≤ c
  | [], _, _, c, hc => by simp [cumsumFrom] at hc
  | x :: xs, a, h, c, hc => by
    have hx : 0 ≤ x := h x (List.mem_cons_self x xs)
    simp only [cumsumFrom, List.mem_cons] at hc
    rcases hc with rfl | hc
    · linarith
    · have := cumsumFrom_ge xs (a + x)
        (fun y hy => h y (List.mem_cons_of_mem _ hy)) c hc
      linarith

/-- Filtering a monotone cumulative-sum column with `<= t` keeps exactly an
initial segment, and the kept mass stays below the threshold. -/
lemma filter_cumsum_take (t : ℚ) : ∀ (l : List ℚ) (idx : List ℕ) (acc : ℚ),
    (∀ x ∈ l, 0 ≤ x) → acc ≤ t →
    ∃ k, (((idx.zip (cumsumFrom acc l)).filter
            (fun p => decide (p.2 ≤ t))).map Prod.fst = idx.take k)
      ∧ acc + (l.take k).sum ≤ t
  | [], idx, acc, _, hacc => by
    refine ⟨0, ?_, ?_⟩ <;> simp [cumsumFrom, hacc]
  | x :: xs, [], acc, _, hacc => by
    refine ⟨0, ?_, ?_⟩ <;> simp [hacc]
  | x :: xs, i :: is, acc, h, hacc => by
    have hxs : ∀ y ∈ xs, 0 ≤ y := fun y hy => h y (List.mem_cons_of_mem _ hy)
    by_cases hx : acc + x ≤ t
    · obtain ⟨k, hmap, hsum⟩ := filter_cumsum_take t xs is (acc + x) hxs hx
      refine ⟨k + 1, ?_, ?_⟩
      · simp only [cumsumFrom, List.zip_cons_cons, List.filter_cons,
          decide_eq_true_eq, hx, if_pos, List.map_cons, List.take_succ_cons]
        exact congrArg (i :: ·) hmap
      · simp only [List.take_succ_cons, List.sum_cons]
        linarith
    · refine ⟨0, ?_, by simpa using hacc⟩
      simp only [List.take_zero, List.map_eq_nil_iff]
      rw [List.filter_eq_nil_iff]
      rintro ⟨j, c⟩ hp
      simp only [decide_eq_true_eq]
      rcases List.mem_cons.mp hp with hhead | htail
      · have : c = acc + x := congrArg Prod.snd hhead
        rw [this]; exact hx
      · have hc : c ∈ cumsumFrom (acc + x) xs := (List.of_mem_zip htail).2
        have := cumsumFrom_ge xs (acc + x) hxs c hc
        intro hct; exact hx (by linarith)

/-! Subsection: Sortedness of the descending ranking -/

lemma keyLe_total (v : List ℚ) : ∀ i j : ℕ, keyLe v i j ∨ keyLe v j i := by
  intro i j
  unfold keyLe
  rcases lt_trichotomy (v.getD i 0) (v.getD j 0) with h | h | h
  · exact Or.inl (Or.inl h)
  · rcases Nat.le_total i j with hij | hij
    · exact Or.inl (Or.inr ⟨h, hij⟩)
    · exact Or.inr (Or.inr ⟨h.symm, hij⟩)
  · exact Or.inr (Or.inl h)

lemma keyLe_trans (v : List ℚ) :
    ∀ a b c : ℕ, keyLe v a b → keyLe v b c → keyLe v a c := by
  intro a b c hab hbc
  unfold keyLe at *
  rcases hab with h1 | ⟨h1, h1le⟩ <;> rcases hbc with h2 | ⟨h2, h2le⟩
  · exact Or.inl (h1.trans h2)
  · exact Or.inl (h2 ▸ h1)
  · exact Or.inl (h1 ▸ h2)
  · exact Or.inr ⟨h1.trans h2, h1le.trans h2le⟩

lemma argsort_sorted (v : List ℚ) : (argsort v).Pairwise (keyLe v) := by
  haveI : IsTotal ℕ (keyLe v) := ⟨keyLe_total v⟩
  haveI : IsTrans ℕ (keyLe v) := ⟨keyLe_trans v⟩
  exact List.sorted_insertionSort (keyLe v) (List.range v.length)

lemma argsortDesc_pairwise (v : List ℚ) :
    (argsortDesc v).Pairwise (fun i j => keyLe v j i) := by
  rw [argsortDesc, List.pairwise_reverse]
  exact argsort_sorted v

lemma argsortDesc_perm (v : List ℚ) :
    (argsortDesc v).Perm (List.range v.length) :=
  (argsort v).reverse_perm.trans (List.perm_insertionSort _ _)

lemma argsortDesc_head_max (v : List ℚ) (i0 : ℕ) (rest : List ℕ)
    (h : argsortDesc v = i0 :: rest) :
    ∀ j ∈ argsortDesc v, v.getD j 0 ≤ v.getD i0 0 := by
  intro j hj
  rw [h] at hj
  rcases List.mem_cons.mp hj with rfl | hj
  · exact le_refl _
  · have hp := argsortDesc_pairwise v
    rw [h, List.pairwise_cons] at hp
    rcases hp.1 j hj with hlt | ⟨heq, -⟩
    · exact le_of_lt hlt
    · exact le_of_eq heq

/-! Subsection: Concrete example vectors used by witnesses -/

/-- Sample importance vector (sums to 1, all entries nonnegative). -/
def exampleImportances : List ℚ := [3/5, 2/5]

lemma selected_features_example : selected_features exampleImportances = [0] := by
  norm_num [exampleImportances, selected_features, argsortDesc, argsort, keyLe,
    gather, cumsum, cumsumFrom, List.insertionSort, List.orderedInsert, List.filter]

lemma selected_features_example_ne_nil :
    selected_features exampleImportances ≠ [] := by
  rw [selected_features_example]
  simp

/-! Section: The attribute-clobbering print loop (first notebook)

The cell assigns `rf.feature_names_in_ = [df.columns[i] for i in range(...)]`
and then iterates `for rf.feature_names_in_ in selected_features:`, using the
model attribute itself as the loop variable.
-/

/-- Possible values of the `rf.feature_names_in_` attribute in the
feature-selection cell: the list of column names assigned before the loop, or
a bare feature position written by the loop. -/
inductive FeatureNamesAttr where
  | colNames : List String → FeatureNamesAttr
  | featIdx : ℕ → FeatureNamesAttr
deriving DecidableEq

/-- Value of `rf.feature_names_in_` after the assignment and the print loop:
the attribute starts as the column-name list and is overwritten by every
iteration of `for rf.feature_names_in_ in selected_features`. -/
def printLoopAttr (cols : List String) (sel : List ℕ) : FeatureNamesAttr :=
  sel.foldl (fun _ i => FeatureNamesAttr.featIdx i) (FeatureNamesAttr.colNames cols)

/-! Section: Train/test splitting -/

/-- `ceil(num * n / den)`: scikit-learn computes the test-set size of
`train_test_split` as the ceiling of `test_size * n_samples`. -/
def ceilMulDiv (num n den : ℕ) : ℕ := (num * n + (den - 1)) / den

/-- Test-set row count for `test_size=0.3` (second notebook). -/
def testCount30 (n : ℕ) : ℕ := ceilMulDiv 3 n 10

/-- Test-set row count for `test_size=0.5` (first notebook). -/
def testCount50 (n : ℕ) : ℕ := ceilMulDiv 1 n 2

/-- Row indices assigned to the test set: the first `ntest` positions of the
shuffled index order. -/
def testIndices (perm : List ℕ) (ntest : ℕ) : List ℕ := perm.take ntest

/-- Row indices assigned to the training set: the remaining positions. -/
def trainIndices (perm : List ℕ) (ntest : ℕ) : List ℕ := perm.drop ntest

/-- Select the rows of a table at the given indices. -/
def selectRows {α : Type} (rows : List α) (idx : List ℕ) : List α :=
  idx.filterMap (fun i => rows[i]?)

/-- Model of sklearn `train_test_split` with a given shuffle order `perm`:
returns `(train, test)`. -/
def train_test_split {α : Type} (rows : List α) (perm : List ℕ) (ntest : ℕ) :
    List α × List α :=
  (selectRows rows (trainIndices perm ntest), selectRows rows (testIndices perm ntest))

/-- `df.iloc[:, :-1]`: every column but the last. -/
def featuresOf (t : List (List ℚ)) : List (List ℚ) := t.map List.dropLast

/-- `df.iloc[:, -1]`: the last (label) column. -/
def labelsOf (t : List (List ℚ)) : List ℚ := t.map (fun r => r.getLastD 0)

/-- The four values returned by `myTrainTestSplit`. -/
structure SplitResult where
  X_train : List (List ℚ)
  X_test : List (List ℚ)
  y_train : List ℚ
  y_test : List ℚ

/-- `myTrainTestSplit` of the second notebook: separate features from the
last column in each table, 70-30 split each table independently (the shuffle
orders `permN`, `permA` model the two `random_state=42` draws), and
concatenate the per-source parts. -/
def myTrainTestSplit (normalData anomalousData : List (List ℚ))
    (permN permA : List ℕ) : SplitResult :=
  { X_train :=
      (train_test_split (featuresOf normalData) permN (testCount30 normalData.length)).1
      ++ (train_test_split (featuresOf anomalousData) permA (testCount30 anomalousData.length)).1
    X_test :=
      (train_test_split (featuresOf normalData) permN (testCount30 normalData.length)).2
      ++ (train_test_split (featuresOf anomalousData) permA (testCount30 anomalousData.length)).2
    y_train :=
      (train_test_split (labelsOf normalData) permN (testCount30 normalData.length)).1
      ++ (train_test_split (labelsOf anomalousData) permA (testCount30 anomalousData.length)).1
    y_test :=
      (train_test_split (labelsOf normalData) permN (testCount30 normalData.length)).2
      ++ (train_test_split (labelsOf anomalousData) permA (testCount30 anomalousData.length)).2 }

/-! Section: Confusion matrix -/

/-- One cell of the 2x2 confusion matrix: the number of test rows whose true
label is `a` and whose predicted label is `b`. -/
def cmCell (a b : ℕ) (y_true y_pred : List ℕ) : ℕ :=
  ((y_true.zip y_pred).filter (fun p => decide (p.1 = a ∧ p.2 = b))).length

/-- sklearn `confusion_matrix` for binary labels, as the tuple
`(tn, fp, fn, tp)` matching the printed layout `[[tn, fp], [fn, tp]]`. -/
def confusion_matrix (y_true y_pred : List ℕ) : ℕ × ℕ × ℕ × ℕ :=
  (cmCell 0 0 y_true y_pred, cmCell 0 1 y_true y_pred,
   cmCell 1 0 y_true y_pred, cmCell 1 1 y_true y_pred)

/-! Section: Wall-clock timing (clock model)

A cell is modelled by threading an explicit clock: each training call
advances the clock by its (arbitrary) duration, and `time.time()` reads the
current clock.
-/

/-- The initial-model cell of the first notebook: `start_time = time.time()`,
`rf.fit(...)` (taking `dRfFit` seconds), `end_time = time.time()`,
`exce = end_time - start_time`. -/
def initialCellExce (startClock dRfFit : ℚ) : ℚ :=
  let start_time := startClock
  let end_time := startClock + dRfFit
  end_time - start_time

/-- The final cell of the first notebook: `start_time = time.time()`,
`grid_search.fit(...)` (taking `dGridSearchFit` seconds),
`end_time = time.time()`, then `rf_best.fit(...)` (taking `dRfBestFit`
seconds) runs after `end_time` was captured, and
`execution_time = end_time - start_time` is printed. -/
def finalCellExecutionTime (startClock dGridSearchFit dRfBestFit : ℚ) : ℚ :=
  let start_time := startClock
  let clockAfterGridFit := startClock + dGridSearchFit
  let end_time := clockAfterGridFit
  let _clockAfterBestFit := clockAfterGridFit + dRfBestFit
  end_time - start_time

/-! Section: Error propagation (both notebooks) -/

def normalCsv : String := "normal.csv"

def anomalousCsv : String := "anomalous.csv"

def ipActivityCsv : String := "IP_Activity_Dataset_5000.csv"

def fileNotFound (path : String) : String := "FileNotFoundError: " ++ path

/-- `pd.read_csv`: the file system is a partial map from paths to tables; a
missing file raises an exception, modelled as `Except.error`. -/
def read_csv (fs : String → Option (List (List ℚ))) (path : String) :
    Except String (List (List ℚ)) :=
  match fs path with
  | some t => Except.ok t
  | none => Except.error (fileNotFound path)

/-- The load-and-split part of the second notebook run: read the two CSV
files, then call `myTrainTestSplit`.  There is no handler anywhere, so an
error from either read is returned unchanged. -/
def pipeline2Load (fs : String → Option (List (List ℚ)))
    (permN permA : List ℕ) : Except String SplitResult :=
  match read_csv fs normalCsv with
  | Except.error e => Except.error e
  | Except.ok normalData =>
    match read_csv fs anomalousCsv with
    | Except.error e => Except.error e
    | Except.ok anomalousData =>
      Except.ok (myTrainTestSplit normalData anomalousData permN permA)

/-! Section: Dataframe frame model (first notebook) -/

/-- Per-column standardization `(x - mean) / scale`, applied row-wise with
the per-column parameters computed by `StandardScaler.fit`. -/
def standardizeWith (means scales : List ℚ) (X : List (List ℚ)) : List (List ℚ) :=
  X.map (fun row => (row.zip (means.zip scales)).map
    (fun p => (p.1 - p.2.1) / p.2.2))

/-- The variables of the first notebook that hold tabular data. -/
structure NB1State where
  df : List (List ℚ)
  X : List (List ℚ)
  y : List ℚ
  X_train : List (List ℚ)
  X_test : List (List ℚ)
  y_train : List ℚ
  y_test : List ℚ
  Xtrain_sel : List (List ℚ)
  X_test_selected : List (List ℚ)

/-- Cell 3 of the first notebook: `X` is `df` without the label column,
`y` is the label column, then the stratified 50-50 `train_test_split`
(shuffle order `perm`). -/
def splitCell (perm : List ℕ) (s : NB1State) : NB1State :=
  { s with
    X := featuresOf s.df
    y := labelsOf s.df
    X_train := (train_test_split (featuresOf s.df) perm (testCount50 s.df.length)).1
    X_test := (train_test_split (featuresOf s.df) perm (testCount50 s.df.length)).2
    y_train := (train_test_split (labelsOf s.df) perm (testCount50 s.df.length)).1
    y_test := (train_test_split (labelsOf s.df) perm (testCount50 s.df.length)).2 }

/-- Cell 4: `X_train = scaler.fit_transform(X_train)`,
`X_test = scaler.transform(X_test)` — new arrays bound to the same names,
with the fitted per-column parameters `means`/`scales`. -/
def scaleCell (means scales : List ℚ) (s : NB1State) : NB1State :=
  { s with
    X_train := standardizeWith means scales s.X_train
    X_test := standardizeWith means scales s.X_test }

/-- Data part of cell 6: `Xtrain_sel = X_train[:, selected_features]`,
`X_test_selected = X_test[:, selected_features]` for the importances of the
fitted ranking model. -/
def featureSelectCell (importances : List ℚ) (s : NB1State) : NB1State :=
  { s with
    Xtrain_sel := sliceCols s.X_train (selected_features importances)
    X_test_selected := sliceCols s.X_test (selected_features importances) }

/-! Subsection: Helper lemmas about row selection and counts -/

lemma perm_mem_lt {n : ℕ} {perm : List ℕ} (hperm : perm.Perm (List.range n))
    {i : ℕ} (hi : i ∈ perm) : i < n :=
  List.mem_range.mp (hperm.mem_iff.mp hi)

lemma selectRows_length {α : Type} (rows : List α) :
    ∀ (idx : List ℕ), (∀ i ∈ idx, i < rows.length) →
      (selectRows rows idx).length = idx.length := by
  intro idx
  induction idx with
  | nil => intro _; rfl
  | cons i is ih =>
    intro h
    have hi : i < rows.length := h i (List.mem_cons_self i is)
    have hrest := ih (fun j hj => h j (List.mem_cons_of_mem _ hj))
    simp only [selectRows, List.filterMap_cons, List.getElem?_eq_getElem hi,
      List.length_cons]
    simpa [selectRows] using hrest

lemma tts_train_length {α : Type} (rows : List α) (perm : List ℕ) (k : ℕ)
    (hperm : perm.Perm (List.range rows.length)) :
    (train_test_split rows perm k).1.length = rows.length - k := by
  have h : ∀ i ∈ trainIndices perm k, i < rows.length := fun i hi =>
    perm_mem_lt hperm (List.mem_of_mem_drop hi)
  have hlen : perm.length = rows.length := by
    simpa using hperm.length_eq
  show (selectRows rows (trainIndices perm k)).length = rows.length - k
  rw [selectRows_length rows _ h, trainIndices, List.length_drop, hlen]

lemma tts_test_length {α : Type} (rows : List α) (perm : List ℕ) (k : ℕ)
    (hperm : perm.Perm (List.range rows.length)) :
    (train_test_split rows perm k).2.length = min k rows.length := by
  have h : ∀ i ∈ testIndices perm k, i < rows.length := fun i hi =>
    perm_mem_lt hperm (List.mem_of_mem_take hi)
  have hlen : perm.length = rows.length := by
    simpa using hperm.length_eq
  show (selectRows rows (testIndices perm k)).length = min k rows.length
  rw [selectRows_length rows _ h, testIndices, List.length_take, hlen]

/-! Section: Claim C1 -/

/-- C1 (counterexample): it is not true that the selected features always
account for 90% of the importance mass.  For the importance vector
`[3/5, 2/5]` the comprehension selects only feature 0, whose mass `3/5`
differs from 90% of the total mass. -/
theorem C1_counterexample :
    selected_features exampleImportances = [0]
    ∧ (gather exampleImportances (selected_features exampleImportances)).sum = 3/5
    ∧ (gather exampleImportances (selected_features exampleImportances)).sum
        ≠ (9/10) * exampleImportances.sum := by
  refine ⟨selected_features_example, ?_, ?_⟩ <;>
    rw [selected_features_example] <;>
    norm_num [exampleImportances, gather]

/-- C1 (amended): the selection keeps the longest initial segment of the
descending-importance ranking whose cumulative importance stays `<= 0.9`, so
for every nonnegative importance vector the selected features account for at
most (not exactly) 90% of the importance mass. -/
theorem C1_selected_features_mass (v : List ℚ) (h : ∀ x ∈ v, 0 ≤ x) :
    (∃ k, selected_features v = (argsortDesc v).take k)
    ∧ (gather v (selected_features v)).sum ≤ 9/10 := by
  obtain ⟨k, hmap, hsum⟩ := filter_cumsum_take ((9:ℚ)/10)
    (gather v (argsortDesc v)) (argsortDesc v) 0
    (gather_nonneg v h _) (by norm_num)
  have hsel : selected_features v = (argsortDesc v).take k := by
    simpa [selected_features, cumsum] using hmap
  refine ⟨⟨k, hsel⟩, ?_⟩
  have hgather : gather v (selected_features v)
      = (gather v (argsortDesc v)).take k := by
    rw [hsel, gather, gather, List.map_take]
  rw [hgather]
  linarith

/-- C1 (witness): the amended statement evaluated on the sample vector. -/
theorem C1_witness :
    (∀ x ∈ exampleImportances, 0 ≤ x)
    ∧ ((∃ k, selected_features exampleImportances
          = (argsortDesc exampleImportances).take k)
        ∧ (gather exampleImportances (selected_features exampleImportances)).sum
            ≤ 9/10) :=
  ⟨by norm_num [exampleImportances],
   C1_selected_features_mass exampleImportances (by norm_num [exampleImportances])⟩

/-! Section: Claim C2 -/

/-- C2: `myTrainTestSplit` separates the label column, 70-30 splits the
normal and the anomalous table independently, and concatenates the
per-source parts; whenever `0.3 * n` is whole for both sources (so the
per-source rounding of the test size plays no role), the ratio of normal to
anomalous rows in the combined training set equals the ratio in the combined
test set. -/
theorem C2_split_ratio (normalData anomalousData : List (List ℚ))
    (permN permA : List ℕ)
    (hpN : permN.Perm (List.range normalData.length))
    (hpA : permA.Perm (List.range anomalousData.length))
    (h10N : 10 ∣ normalData.length) (h10A : 10 ∣ anomalousData.length) :
    (myTrainTestSplit normalData anomalousData permN permA).X_train
      = (train_test_split (featuresOf normalData) permN
          (testCount30 normalData.length)).1
        ++ (train_test_split (featuresOf anomalousData) permA
          (testCount30 anomalousData.length)).1
    ∧ (myTrainTestSplit normalData anomalousData permN permA).X_test
      = (train_test_split (featuresOf normalData) permN
          (testCount30 normalData.length)).2
        ++ (train_test_split (featuresOf anomalousData) permA
          (testCount30 anomalousData.length)).2
    ∧ (train_test_split (featuresOf normalData) permN
          (testCount30 normalData.length)).1.length
        * (train_test_split (featuresOf anomalousData) permA
          (testCount30 anomalousData.length)).2.length
      = (train_test_split (featuresOf normalData) permN
          (testCount30 normalData.length)).2.length
        * (train_test_split (featuresOf anomalousData) permA
          (testCount30 anomalousData.length)).1.length := by
  obtain ⟨mN, hmN⟩ := h10N
  obtain ⟨mA, hmA⟩ := h10A
  refine ⟨rfl, rfl, ?_⟩
  have hfN : (featuresOf normalData).length = normalData.length := by
    simp [featuresOf]
  have hfA : (featuresOf anomalousData).length = anomalousData.length := by
    simp [featuresOf]
  have hpN2 : permN.Perm (List.range (featuresOf normalData).length) := by
    rw [hfN]; exact hpN
  have hpA2 : permA.Perm (List.range (featuresOf anomalousData).length) := by
    rw [hfA]; exact hpA
  rw [tts_train_length _ _ _ hpN2, tts_test_length _ _ _ hpN2,
    tts_train_length _ _ _ hpA2, tts_test_length _ _ _ hpA2,
    hfN, hfA, hmN, hmA]
  have hkN : testCount30 (10 * mN) = 3 * mN := by
    unfold testCount30 ceilMulDiv; omega
  have hkA : testCount30 (10 * mA) = 3 * mA := by
    unfold testCount30 ceilMulDiv; omega
  rw [hkN, hkA]
  have h1 : 10 * mN - 3 * mN = 7 * mN := by omega
  have h2 : 10 * mA - 3 * mA = 7 * mA := by omega
  have h3 : min (3 * mN) (10 * mN) = 3 * mN := by omega
  have h4 : min (3 * mA) (10 * mA) = 3 * mA := by omega
  rw [h1, h2, h3, h4]
  ring

/-- Sample normal-class table: ten rows, label column 0. -/
def normalExample : List (List ℚ) := List.replicate 10 [0, 0]

/-- Sample anomalous-class table: ten rows, label column 1. -/
def anomalousExample : List (List ℚ) := List.replicate 10 [1, 1]

lemma normalExample_length : normalExample.length = 10 := by
  simp [normalExample]

lemma anomalousExample_length : anomalousExample.length = 10 := by
  simp [anomalousExample]

lemma range_perm_normalExample :
    (List.range 10).Perm (List.range normalExample.length) := by
  rw [normalExample_length]

lemma range_perm_anomalousExample :
    (List.range 10).Perm (List.range anomalousExample.length) := by
  rw [anomalousExample_length]

/-- C2 (witness): the split-ratio statement evaluated on two sample tables of
ten rows each. -/
theorem C2_witness :
    (10 ∣ normalExample.length) ∧ (10 ∣ anomalousExample.length)
    ∧ (myTrainTestSplit normalExample anomalousExample
        (List.range 10) (List.range 10)).X_train
      = (train_test_split (featuresOf normalExample) (List.range 10)
          (testCount30 normalExample.length)).1
        ++ (train_test_split (featuresOf anomalousExample) (List.range 10)
          (testCount30 anomalousExample.length)).1
    ∧ (train_test_split (featuresOf normalExample) (List.range 10)
          (testCount30 normalExample.length)).1.length
        * (train_test_split (featuresOf anomalousExample) (List.range 10)
          (testCount30 anomalousExample.length)).2.length
      = (train_test_split (featuresOf normalExample) (List.range 10)
          (testCount30 normalExample.length)).2.length
        * (train_test_split (featuresOf anomalousExample) (List.range 10)
          (testCount30 anomalousExample.length)).1.length := by
  have h := C2_split_ratio normalExample anomalousExample
    (List.range 10) (List.range 10)
    range_perm_normalExample range_perm_anomalousExample
    (by rw [normalExample_length]) (by rw [anomalousExample_length])
  exact ⟨by rw [normalExample_length], by rw [anomalousExample_length],
    h.1, h.2.2⟩

/-! Section: Claim C3 -/

/-- C3: the split partitions the row indices: train and test index sets are
disjoint and together are a permutation of all row indices; the subsequent
operations (standardization, feature selection) map each row in place and
preserve row counts, so they never move a row between partitions. -/
theorem C3_partition (n k : ℕ) (perm : List ℕ)
    (hperm : perm.Perm (List.range n)) :
    List.Disjoint (trainIndices perm k) (testIndices perm k)
    ∧ (trainIndices perm k ++ testIndices perm k).Perm (List.range n)
    ∧ (∀ means scales X, (standardizeWith means scales X).length = X.length)
    ∧ (∀ X cols, (sliceCols X cols).length = X.length) := by
  have hnodup : perm.Nodup := hperm.symm.nodup (List.nodup_range n)
  have hsplit : testIndices perm k ++ trainIndices perm k = perm :=
    List.take_append_drop k perm
  have hnodup2 : (testIndices perm k ++ trainIndices perm k).Nodup := by
    rw [hsplit]; exact hnodup
  refine ⟨?_, ?_, ?_, ?_⟩
  · exact ((List.nodup_append.mp hnodup2).2.2).symm
  · have h1 : (trainIndices perm k ++ testIndices perm k).Perm
        (testIndices perm k ++ trainIndices perm k) := List.perm_append_comm
    rw [hsplit] at h1
    exact h1.trans hperm
  · intro means scales X; simp [standardizeWith]
  · intro X cols; simp [sliceCols]

/-- C3 (witness): the partition statement evaluated at a concrete shuffle of
four rows with a test size of two. -/
theorem C3_witness :
    ([2, 0, 3, 1] : List ℕ).Perm (List.range 4)
    ∧ (List.Disjoint (trainIndices [2, 0, 3, 1] 2) (testIndices [2, 0, 3, 1] 2)
        ∧ (trainIndices [2, 0, 3, 1] 2 ++ testIndices [2, 0, 3, 1] 2).Perm
            (List.range 4)
        ∧ (∀ means scales X, (standardizeWith means scales X).length = X.length)
        ∧ (∀ X cols, (sliceCols X cols).length = X.length)) :=
  ⟨by decide, C3_partition 4 2 [2, 0, 3, 1] (by decide)⟩

/-! Section: Claim C4 -/

/-- C4: train plus test row counts equal the source row count: for any table
and any test size in the split of the first notebook, and for the concatenated
outputs of `myTrainTestSplit` in the second notebook; moreover the 50-50
split of a 5000-row table has a test count of 2500, so its train and test
counts sum to 5000. -/
theorem C4_counts (rows : List (List ℚ)) (perm : List ℕ) (k : ℕ)
    (normalData anomalousData : List (List ℚ)) (permN permA : List ℕ)
    (hperm : perm.Perm (List.range rows.length))
    (hpN : permN.Perm (List.range normalData.length))
    (hpA : permA.Perm (List.range anomalousData.length)) :
    (train_test_split rows perm k).1.length
      + (train_test_split rows perm k).2.length = rows.length
    ∧ (myTrainTestSplit normalData anomalousData permN permA).X_train.length
      + (myTrainTestSplit normalData anomalousData permN permA).X_test.length
      = normalData.length + anomalousData.length
    ∧ testCount50 5000 = 2500 := by
  have hfN : (featuresOf normalData).length = normalData.length := by
    simp [featuresOf]
  have hfA : (featuresOf anomalousData).length = anomalousData.length := by
    simp [featuresOf]
  have hpN2 : permN.Perm (List.range (featuresOf normalData).length) := by
    rw [hfN]; exact hpN
  have hpA2 : permA.Perm (List.range (featuresOf anomalousData).length) := by
    rw [hfA]; exact hpA
  refine ⟨?_, ?_, by decide⟩
  · rw [tts_train_length _ _ _ hperm, tts_test_length _ _ _ hperm]
    omega
  · show ((train_test_split (featuresOf normalData) permN _).1
        ++ (train_test_split (featuresOf anomalousData) permA _).1).length
      + ((train_test_split (featuresOf normalData) permN _).2
        ++ (train_test_split (featuresOf anomalousData) permA _).2).length
      = normalData.length + anomalousData.length
    rw [List.length_append, List.length_append,
      tts_train_length _ _ _ hpN2, tts_test_length _ _ _ hpN2,
      tts_train_length _ _ _ hpA2, tts_test_length _ _ _ hpA2, hfN, hfA]
    omega

/-- C4 (witness): the count statement evaluated on the sample tables with a
concrete shuffle and test size. -/
theorem C4_witness :
    (List.range 10).Perm (List.range normalExample.length)
    ∧ ((train_test_split normalExample (List.range 10) 3).1.length
        + (train_test_split normalExample (List.range 10) 3).2.length
        = normalExample.length
      ∧ (myTrainTestSplit normalExample anomalousExample
          (List.range 10) (List.range 10)).X_train.length
        + (myTrainTestSplit normalExample anomalousExample
          (List.range 10) (List.range 10)).X_test.length
        = normalExample.length + anomalousExample.length
      ∧ testCount50 5000 = 2500) :=
  ⟨range_perm_normalExample,
   C4_counts normalExample (List.range 10) 3 normalExample anomalousExample
    (List.range 10) (List.range 10) range_perm_normalExample
    range_perm_normalExample range_perm_anomalousExample⟩

/-! Section: Claim C5 -/

lemma cm_partition : ∀ (l : List (ℕ × ℕ)),
    (∀ p ∈ l, (p.1 = 0 ∨ p.1 = 1) ∧ (p.2 = 0 ∨ p.2 = 1)) →
    (l.filter (fun p => decide (p.1 = 0 ∧ p.2 = 0))).length
    + (l.filter (fun p => decide (p.1 = 0 ∧ p.2 = 1))).length
    + (l.filter (fun p => decide (p.1 = 1 ∧ p.2 = 0))).length
    + (l.filter (fun p => decide (p.1 = 1 ∧ p.2 = 1))).length = l.length := by
  intro l
  induction l with
  | nil => intro _; rfl
  | cons p ps ih =>
    intro h
    have hp := h p (List.mem_cons_self p ps)
    have hrest := ih (fun q hq => h q (List.mem_cons_of_mem _ hq))
    obtain ⟨a, b⟩ := p
    rcases hp.1 with ha | ha <;> rcases hp.2 with hb | hb <;>
      subst ha <;> subst hb <;>
      simp only [List.filter_cons] <;> simp at hrest ⊢ <;> omega

/-- C5: for binary label and prediction vectors of equal length, the four
cells of the confusion matrix sum to the number of test rows. -/
theorem C5_confusion_total (y_true y_pred : List ℕ)
    (hlen : y_true.length = y_pred.length)
    (ht : ∀ v ∈ y_true, v = 0 ∨ v = 1) (hp : ∀ v ∈ y_pred, v = 0 ∨ v = 1) :
    (confusion_matrix y_true y_pred).1 + (confusion_matrix y_true y_pred).2.1
    + (confusion_matrix y_true y_pred).2.2.1
    + (confusion_matrix y_true y_pred).2.2.2 = y_true.length := by
  have hmem : ∀ p ∈ y_true.zip y_pred,
      (p.1 = 0 ∨ p.1 = 1) ∧ (p.2 = 0 ∨ p.2 = 1) := by
    intro p hpz
    obtain ⟨a, b⟩ := p
    have hab := List.of_mem_zip hpz
    exact ⟨ht a hab.1, hp b hab.2⟩
  have hzlen : (y_true.zip y_pred).length = y_true.length := by
    rw [List.length_zip, hlen, min_self]
  have := cm_partition (y_true.zip y_pred) hmem
  rw [hzlen] at this
  simpa [confusion_matrix, cmCell] using this

/-- C5 (witness): the confusion-matrix total evaluated on concrete label and
prediction vectors of length four. -/
theorem C5_witness :
    ([0, 1, 1, 0] : List ℕ).length = ([0, 1, 0, 0] : List ℕ).length
    ∧ (∀ v ∈ ([0, 1, 1, 0] : List ℕ), v = 0 ∨ v = 1)
    ∧ (∀ v ∈ ([0, 1, 0, 0] : List ℕ), v = 0 ∨ v = 1)
    ∧ (confusion_matrix [0, 1, 1, 0] [0, 1, 0, 0]).1
      + (confusion_matrix [0, 1, 1, 0] [0, 1, 0, 0]).2.1
      + (confusion_matrix [0, 1, 1, 0] [0, 1, 0, 0]).2.2.1
      + (confusion_matrix [0, 1, 1, 0] [0, 1, 0, 0]).2.2.2
      = ([0, 1, 1, 0] : List ℕ).length :=
  ⟨rfl, by decide, by decide,
   C5_confusion_total [0, 1, 1, 0] [0, 1, 0, 0] rfl (by decide) (by decide)⟩

/-! Section: Claim C6 -/

/-- C6 (counterexample): it is not true that the "Execution time" printed in
the first final cell of the first notebook measures the training of the final model
`rf_best`.  With a grid search lasting 5 seconds and an `rf_best.fit` lasting
7 seconds, the printed value is 5, not 7. -/
theorem C6_counterexample :
    finalCellExecutionTime 0 5 7 = 5 ∧ (5:ℚ) ≠ 7 := by
  constructor
  · show (0:ℚ) + 5 - 0 = 5; ring
  · norm_num

/-- C6 (amended): the earlier cells do time their own training call (`exce`
equals the duration of the `rf.fit` call of that cell), but in the final cell the
`start_time`/`end_time` pair brackets `grid_search.fit`, and `rf_best.fit`
runs after `end_time` is captured, so the printed "Execution time" equals the
grid-search duration regardless of how long the training of `rf_best` takes. -/
theorem C6_execution_time (startClock dGridSearchFit dRfBestFit dRfFit : ℚ) :
    finalCellExecutionTime startClock dGridSearchFit dRfBestFit = dGridSearchFit
    ∧ initialCellExce startClock dRfFit = dRfFit := by
  constructor
  · show startClock + dGridSearchFit - startClock = dGridSearchFit; ring
  · show startClock + dRfFit - startClock = dRfFit; ring

/-! Section: Claim C7 -/

/-- C7: no operation catches errors: a missing CSV file surfaces as the
uncaught read error of the whole run, in the first notebook (single read) and
in the second (either of the two reads), and the run only succeeds when every
read succeeds, with no retry or recovery path. -/
theorem C7_error_propagation (fs : String → Option (List (List ℚ)))
    (permN permA : List ℕ) :
    (fs ipActivityCsv = none →
      read_csv fs ipActivityCsv = Except.error (fileNotFound ipActivityCsv))
    ∧ (fs normalCsv = none →
      pipeline2Load fs permN permA = Except.error (fileNotFound normalCsv))
    ∧ (∀ tN, fs normalCsv = some tN → fs anomalousCsv = none →
      pipeline2Load fs permN permA = Except.error (fileNotFound anomalousCsv))
    ∧ (∀ tN tA, fs normalCsv = some tN → fs anomalousCsv = some tA →
      pipeline2Load fs permN permA
        = Except.ok (myTrainTestSplit tN tA permN permA)) := by
  refine ⟨?_, ?_, ?_, ?_⟩
  · intro h; simp [read_csv, h]
  · intro h; simp [pipeline2Load, read_csv, h]
  · intro tN hN hA; simp [pipeline2Load, read_csv, hN, hA]
  · intro tN tA hN hA; simp [pipeline2Load, read_csv, hN, hA]

/-- C7 (witness): on an empty file system, the run of the second notebook is
exactly the missing-file error of its first read. -/
theorem C7_witness :
    pipeline2Load (fun _ => none) [] [] = Except.error (fileNotFound normalCsv) :=
  (C7_error_propagation (fun _ => none) [] []).2.1 rfl

/-! Section: Claim C8 -/

/-- C8: the dataframe `df` is never modified after loading: the split cell,
the scaling cell (which binds new scaled arrays to `X_train`/`X_test`), and
the feature-selection cell all leave the `df` component of the notebook state
unchanged. -/
theorem C8_df_immutable (s : NB1State) (perm : List ℕ)
    (means scales importances : List ℚ) :
    (featureSelectCell importances (scaleCell means scales (splitCell perm s))).df
      = s.df
    ∧ (scaleCell means scales (splitCell perm s)).X_train
      = standardizeWith means scales (splitCell perm s).X_train := by
  exact ⟨rfl, rfl⟩

/-! Section: Claim C9 -/

lemma selected_features_eq_nil (v : List ℚ) (h0 : ∀ x ∈ v, 0 ≤ x)
    (i0 : ℕ) (rest : List ℕ) (h : argsortDesc v = i0 :: rest)
    (hbig : (9:ℚ)/10 < v.getD i0 0) : selected_features v = [] := by
  unfold selected_features
  rw [h]
  have hg : gather v (i0 :: rest) = v.getD i0 0 :: gather v rest := rfl
  rw [hg]
  have hc : cumsum (v.getD i0 0 :: gather v rest)
      = (0 + v.getD i0 0) :: cumsumFrom (0 + v.getD i0 0) (gather v rest) := rfl
  rw [hc]
  rw [List.map_eq_nil_iff, List.filter_eq_nil_iff]
  rintro ⟨j, c⟩ hp
  simp only [decide_eq_true_eq]
  intro hct
  rcases List.mem_cons.mp hp with hhead | htail
  · have hce : c = 0 + v.getD i0 0 := congrArg Prod.snd hhead
    rw [hce] at hct
    linarith
  · have hcm : c ∈ cumsumFrom (0 + v.getD i0 0) (gather v rest) :=
      (List.of_mem_zip htail).2
    have := cumsumFrom_ge (gather v rest) (0 + v.getD i0 0)
      (gather_nonneg v h0 rest) c hcm
    linarith

/-- C9: when some single importance exceeds 0.9, the very first cumulative
sum (the maximum importance, first in the descending ranking) already
exceeds the threshold, so `selected_features` is empty and slicing any
training or test matrix with it produces rows with zero features. -/
theorem C9_empty_selection (v : List ℚ) (X : List (List ℚ))
    (h0 : ∀ x ∈ v, 0 ≤ x) (hbig : ∃ x ∈ v, (9:ℚ)/10 < x) :
    selected_features v = []
    ∧ ∀ row ∈ sliceCols X (selected_features v), row = [] := by
  obtain ⟨x, hxv, hx⟩ := hbig
  obtain ⟨m, hm, hme⟩ := List.mem_iff_getElem.mp hxv
  have hmD : (9:ℚ)/10 < v.getD m 0 := by
    rw [List.getD_eq_getElem v 0 hm, hme]; exact hx
  have hmmem : m ∈ argsortDesc v :=
    (argsortDesc_perm v).mem_iff.mpr (List.mem_range.mpr hm)
  have hsel : selected_features v = [] := by
    cases hd : argsortDesc v with
    | nil => rw [hd] at hmmem; cases hmmem
    | cons i0 rest =>
      have hmax := argsortDesc_head_max v i0 rest hd m hmmem
      exact selected_features_eq_nil v h0 i0 rest hd (lt_of_lt_of_le hmD hmax)
  refine ⟨hsel, ?_⟩
  rw [hsel]
  intro row hrow
  simp only [sliceCols, List.mem_map] at hrow
  obtain ⟨r, -, rfl⟩ := hrow
  rfl

/-- Sample importance vector dominated by a single feature. -/
def dominatedImportances : List ℚ := [19/20, 1/20]

/-- C9 (witness): the empty-selection statement evaluated on a vector whose
first importance is 0.95. -/
theorem C9_witness :
    (∀ x ∈ dominatedImportances, 0 ≤ x)
    ∧ (∃ x ∈ dominatedImportances, (9:ℚ)/10 < x)
    ∧ selected_features dominatedImportances = []
    ∧ ∀ row ∈ sliceCols [[(1:ℚ), 2], [3, 4]] (selected_features dominatedImportances),
        row = [] := by
  refine ⟨by norm_num [dominatedImportances], ?_, ?_⟩
  · exact ⟨19/20, by norm_num [dominatedImportances]⟩
  · exact C9_empty_selection dominatedImportances [[(1:ℚ), 2], [3, 4]]
      (by norm_num [dominatedImportances])
      ⟨19/20, by norm_num [dominatedImportances]⟩

/-! Section: Claim C10 -/

/-- Column names of the dataframe of the first notebook. -/
def requestsCol : String := "requests"

/-- C10: whenever `selected_features` is non-empty, the print loop that uses
`rf.feature_names_in_` as its loop variable leaves the attribute equal to the
last selected feature position — a bare integer index, no longer the
column-name list assigned just before the loop. -/
theorem C10_attribute_clobbered (cols : List String) (v : List ℚ)
    (h : selected_features v ≠ []) :
    printLoopAttr cols (selected_features v)
      = FeatureNamesAttr.featIdx ((selected_features v).getLast h)
    ∧ ∀ l, FeatureNamesAttr.featIdx ((selected_features v).getLast h)
        ≠ FeatureNamesAttr.colNames l := by
  constructor
  · conv_lhs => rw [printLoopAttr, ← List.dropLast_append_getLast h]
    rw [List.foldl_append]
    rfl
  · intro l hcontra
    cases hcontra

/-- C10 (witness): the clobbering statement evaluated on the sample vector,
whose selection is the single feature 0. -/
theorem C10_witness :
    printLoopAttr [requestsCol] (selected_features exampleImportances)
      = FeatureNamesAttr.featIdx
          ((selected_features exampleImportances).getLast
            selected_features_example_ne_nil)
    ∧ ∀ l, FeatureNamesAttr.featIdx
          ((selected_features exampleImportances).getLast
            selected_features_example_ne_nil)
        ≠ FeatureNamesAttr.colNames l :=
  C10_attribute_clobbered [requestsCol] exampleImportances
    selected_features_example_ne_nil

end MLIntro
